import Mathlib

/-!
Verification of the Crystal Reports edit service
(`backend/core/edit_service.py`): the rule-based fallback command parser
(`_fallback_parse_command`), the edit applicator (`apply_edit` and the
`_rename_field` … `_format_field` handlers) and the structural
diff/preview engine (`create_edit_preview`), shallowly embedded over the
structural document model the service operates on.

Modelling conventions:
* The report metadata is a JSON-like tree of dicts and lists.  Python
  dicts are association lists `List (String × α)`; `dictInsert` mirrors
  `d[k] = v` (update an existing key in place, else append), `dictRemove`
  mirrors `d.pop(k, …)`, `dictGet` mirrors `d.get(k)`, and set views of
  key sets are deduplicated key lists (`setKeys`), mirroring
  `set(d.keys())`.
* A possibly-absent `hidden` key is an `Option Bool`; readers use
  `Option.getD false`, mirroring `d.get('hidden', False)`.  `show_field`
  and `show_section` delete the key (`pop`), i.e. set it to `none`.
* A `formatting` key that is absent and one equal to `{}` are identified
  (the code never distinguishes them: it reads `get('formatting', {})`
  and materialises the key just before updating it).
* Objects carry the keys the service reads and writes (`name`, `hidden`,
  `text`, `formatting`, and for lineage entries `source`, `formula`,
  `section`, `hidden`).  `picture_objects` and `report_info` are never
  touched by the parser, applicator or diff engine and are omitted.
* Mutation of the deep-copied metadata is modelled by explicit state
  passing; `json.loads(json.dumps(metadata))` is `deepCopyDoc`, a
  structural rebuild, proved equal to the identity.
* Raised exceptions are an `Except` error type; the constructors follow
  the documented error taxonomy (ValidationError for a missing required
  field, NotFoundError for a missing target), and `apply_edit`'s
  re-raise `ValueError(f"Failed to apply edit: {e}")` is modelled as a
  message-wrapping `mapError`.
-/

namespace EditService

/-- A JSON scalar value, as found in `formatting` maps and
`parameters` dicts (e.g. `bold: true`, `font_size: 14`). -/
inductive PValue where
  | s (v : String)
  | b (v : Bool)
  | n (v : Int)
deriving DecidableEq, Repr

/-- `d.get(k)` on an association-list dict: first binding wins. -/
def dictGet (k : String) : List (String × α) → Option α
  | [] => none
  | (k', v) :: rest => if k' = k then some v else dictGet k rest

/-- `k in d`. -/
def dictContains (k : String) (l : List (String × α)) : Bool :=
  (dictGet k l).isSome

/-- `d[k] = v`: replace the value of an existing key in place, else
append the new binding at the end (CPython dict semantics). -/
def dictInsert (k : String) (v : α) : List (String × α) → List (String × α)
  | [] => [(k, v)]
  | (k', v') :: rest =>
      if k' = k then (k, v) :: rest else (k', v') :: dictInsert k v rest

/-- `d.pop(k)` (the binding's removal; the code only pops keys it has
checked are present, or pops with a default). -/
def dictRemove (k : String) : List (String × α) → List (String × α)
  | [] => []
  | (k', v') :: rest =>
      if k' = k then rest else (k', v') :: dictRemove k rest

/-- The dict's key list, in insertion order. -/
def dictKeys (l : List (String × α)) : List String :=
  l.map Prod.fst

/-- `set(d.keys())`: the key list deduplicated (membership and
cardinality are all the diff engine uses of these sets). -/
def setKeys (l : List (String × α)) : List String :=
  (dictKeys l).dedup

/-- Python `==` on two dicts: equal key sets and equal values, however
the bindings are ordered. -/
def dictEq [DecidableEq α] (a b : List (String × α)) : Bool :=
  (dictKeys a).all (fun k => decide (dictGet k a = dictGet k b)) &&
  (dictKeys b).all (fun k => decide (dictGet k a = dictGet k b))

/-- A `field_objects` entry: `{name, database_field?, formula?, hidden?,
formatting?}`.  Only `name`, `hidden` and `formatting` are ever read or
written by the edit service. -/
structure FieldObject where
  name : String
  hidden : Option Bool
  formatting : List (String × PValue)
deriving DecidableEq, Repr

/-- A `text_objects` entry: `{name, text, hidden?, formatting?}`. -/
structure TextObject where
  name : String
  text : String
  hidden : Option Bool
  formatting : List (String × PValue)
deriving DecidableEq, Repr

/-- A `sections` entry.  `picture_objects` is never touched by the edit
service and is omitted. -/
structure Section where
  name : String
  hidden : Option Bool
  field_objects : List FieldObject
  text_objects : List TextObject
deriving DecidableEq, Repr

/-- A `field_lineage` entry: the data-origin descriptor of a field.  The
edit service reads and writes `section` and `hidden` and relocates whole
entries on rename. -/
structure LineageEntry where
  source : String
  formula : String
  sectionName : String
  hidden : Option Bool
deriving DecidableEq, Repr

/-- The report metadata as the edit service sees it: an ordered sequence
of sections and the `field_lineage` dict. -/
structure Document where
  sections : List Section
  field_lineage : List (String × LineageEntry)
deriving DecidableEq, Repr

/-- A dict (`field_lineage`) has no duplicate keys: automatically true
of every Python dict, stated explicitly for the association-list
model. -/
def Document.WF (m : Document) : Prop :=
  (dictKeys m.field_lineage).Nodup

instance (m : Document) : Decidable m.WF := by
  unfold Document.WF; infer_instance

/-- The structured edit command (`EditCommand` dataclass): one
constructor per `EditType`, carrying the fields its handler reads. -/
inductive EditCommand where
  | rename_field (target : String) (new_value : String)
  | hide_field (target : String)
  | show_field (target : String)
  | move_field (target : String) (target_section : Option String)
  | change_text (target : String) (new_value : String)
  | hide_section (target : String)
  | show_section (target : String)
  | format_field (target : String) (parameters : List (String × PValue))
deriving DecidableEq, Repr

/-- The raised-error taxonomy of the applicator: ValidationError (a
required field of the command is missing) and NotFoundError (a named
target or section does not exist).  In the source both are `ValueError`s
with the messages carried here. -/
inductive EditError where
  | validationError (msg : String)
  | notFoundError (msg : String)
deriving DecidableEq, Repr

/-! ## The deep copy

`apply_edit` first does `modified_metadata = json.loads(json.dumps(metadata))`
and hands only that copy to the handlers.  On this data model the JSON
round trip is a structural rebuild of every node. -/

def deepCopyFormatting (f : List (String × PValue)) : List (String × PValue) :=
  f.map (fun p => (p.1, p.2))

def deepCopyFieldObject (f : FieldObject) : FieldObject :=
  { name := f.name, hidden := f.hidden,
    formatting := deepCopyFormatting f.formatting }

def deepCopyTextObject (t : TextObject) : TextObject :=
  { name := t.name, text := t.text, hidden := t.hidden,
    formatting := deepCopyFormatting t.formatting }

def deepCopySection (s : Section) : Section :=
  { name := s.name, hidden := s.hidden,
    field_objects := s.field_objects.map deepCopyFieldObject,
    text_objects := s.text_objects.map deepCopyTextObject }

def deepCopyLineage (e : LineageEntry) : LineageEntry :=
  { source := e.source, formula := e.formula,
    sectionName := e.sectionName, hidden := e.hidden }

def deepCopyDoc (m : Document) : Document :=
  { sections := m.sections.map deepCopySection,
    field_lineage := m.field_lineage.map (fun p => (p.1, deepCopyLineage p.2)) }

/-! ## The edit applicator (`apply_edit` and its handlers) -/

/-- `_rename_field`: relocate the lineage entry of `target` (if any) to
the key `new_value`, and rename every field object and every text object
named `target` in every section. -/
def rename_field (m : Document) (target new_value : String) : Document :=
  let fl :=
    match dictGet target m.field_lineage with
    | some field_data =>
        dictInsert new_value field_data (dictRemove target m.field_lineage)
    | none => m.field_lineage
  { sections := m.sections.map (fun s =>
      { s with
        field_objects := s.field_objects.map (fun fo =>
          if fo.name = target then { fo with name := new_value } else fo),
        text_objects := s.text_objects.map (fun t =>
          if t.name = target then { t with name := new_value } else t) }),
    field_lineage := fl }

/-- `_hide_field`: set `hidden = True` on the lineage entry (if present)
and on every field object named `target`, in every section. -/
def hide_field (m : Document) (target : String) : Document :=
  let fl :=
    match dictGet target m.field_lineage with
    | some e => dictInsert target { e with hidden := some true } m.field_lineage
    | none => m.field_lineage
  { sections := m.sections.map (fun s =>
      { s with field_objects := s.field_objects.map (fun fo =>
          if fo.name = target then { fo with hidden := some true } else fo) }),
    field_lineage := fl }

/-- `_show_field`: `pop('hidden', None)` — delete the `hidden` key
outright — on the lineage entry (if present) and on every field object
named `target`, in every section. -/
def show_field (m : Document) (target : String) : Document :=
  let fl :=
    match dictGet target m.field_lineage with
    | some e => dictInsert target { e with hidden := none } m.field_lineage
    | none => m.field_lineage
  { sections := m.sections.map (fun s =>
      { s with field_objects := s.field_objects.map (fun fo =>
          if fo.name = target then { fo with hidden := none } else fo) }),
    field_lineage := fl }

/-- Remove the first field object named `target` from a section's list
(`field_objects.pop(i)` at the first matching index). -/
def extractFirstField (target : String) :
    List FieldObject → Option (FieldObject × List FieldObject)
  | [] => none
  | fo :: rest =>
      if fo.name = target then some (fo, rest)
      else (extractFirstField target rest).map (fun p => (p.1, fo :: p.2))

/-- Remove the first field object named `target`, searching the sections
in document order; the outer loop stops at the first section that had a
match. -/
def removeFieldFromSections (target : String) :
    List Section → Option (FieldObject × List Section)
  | [] => none
  | s :: rest =>
      match extractFirstField target s.field_objects with
      | some (fo, fos) => some (fo, { s with field_objects := fos } :: rest)
      | none =>
          (removeFieldFromSections target rest).map (fun p => (p.1, s :: p.2))

/-- Append a field object to the end of the first section named
`target_section`; `none` when no section has that name (the `for … else`
raise). -/
def appendFieldToSection (target_section : String) (fo : FieldObject) :
    List Section → Option (List Section)
  | [] => none
  | s :: rest =>
      if s.name = target_section then
        some ({ s with field_objects := s.field_objects ++ [fo] } :: rest)
      else (appendFieldToSection target_section fo rest).map (fun l => s :: l)

/-- `_move_field`: ValidationError without a (truthy) `target_section`;
remove the first field object named `target` in document order
(NotFoundError if absent); append it to the first section named
`target_section` (NotFoundError if absent); update the lineage entry's
`section` if present. -/
def move_field (m : Document) (target : String)
    (target_section : Option String) : Except EditError Document :=
  match target_section with
  | none => .error (.validationError "Target section required for move operation")
  | some ts =>
      if ts = "" then
        .error (.validationError "Target section required for move operation")
      else
        match removeFieldFromSections target m.sections with
        | none =>
            .error (.notFoundError ("Field '" ++ target ++ "' not found"))
        | some (field_to_move, sections1) =>
            match appendFieldToSection ts field_to_move sections1 with
            | none =>
                .error (.notFoundError
                  ("Target section '" ++ ts ++ "' not found"))
            | some sections2 =>
                let fl :=
                  match dictGet target m.field_lineage with
                  | some e =>
                      dictInsert target { e with sectionName := ts }
                        m.field_lineage
                  | none => m.field_lineage
                .ok { sections := sections2, field_lineage := fl }

/-- Overwrite the text of the first text object named `target` in one
section's list (the inner loop breaks at the first match). -/
def changeTextInList (target new_value : String) :
    List TextObject → List TextObject
  | [] => []
  | t :: rest =>
      if t.name = target then { t with text := new_value } :: rest
      else t :: changeTextInList target new_value rest

/-- `_change_text`: the inner loop breaks at the first matching text
object of a section, but the outer loop visits every section, so the
first match of every section is overwritten; a no-op where (and when)
there is no match. -/
def change_text (m : Document) (target new_value : String) : Document :=
  { m with sections := m.sections.map (fun s =>
      { s with text_objects := changeTextInList target new_value s.text_objects }) }

/-- `_hide_section`: set `hidden = True` on the first section named
`target`; no-op if not found. -/
def hideSectionIn (target : String) : List Section → List Section
  | [] => []
  | s :: rest =>
      if s.name = target then { s with hidden := some true } :: rest
      else s :: hideSectionIn target rest

def hide_section (m : Document) (target : String) : Document :=
  { m with sections := hideSectionIn target m.sections }

/-- `_show_section`: `pop('hidden', None)` on the first section named
`target`; no-op if not found. -/
def showSectionIn (target : String) : List Section → List Section
  | [] => []
  | s :: rest =>
      if s.name = target then { s with hidden := none } :: rest
      else s :: showSectionIn target rest

def show_section (m : Document) (target : String) : Document :=
  { m with sections := showSectionIn target m.sections }

/-- `d.update(parameters or {})` on a formatting dict. -/
def dictUpdate (d ps : List (String × PValue)) : List (String × PValue) :=
  ps.foldl (fun acc p => dictInsert p.1 p.2 acc) d

/-- Merge `parameters` into the formatting of the first matching field
object of one section (the inner loop breaks at the first match). -/
def formatFirstFieldIn (target : String) (ps : List (String × PValue)) :
    List FieldObject → List FieldObject
  | [] => []
  | fo :: rest =>
      if fo.name = target then
        { fo with formatting := dictUpdate fo.formatting ps } :: rest
      else fo :: formatFirstFieldIn target ps rest

/-- Merge `parameters` into the formatting of the first matching text
object of one section. -/
def formatFirstTextIn (target : String) (ps : List (String × PValue)) :
    List TextObject → List TextObject
  | [] => []
  | t :: rest =>
      if t.name = target then
        { t with formatting := dictUpdate t.formatting ps } :: rest
      else t :: formatFirstTextIn target ps rest

/-- `_format_field`: in every section, merge the parameters into the
first matching field object and into the first matching text object (the
per-section searches stop at the first match, the section loop does
not). -/
def format_field (m : Document) (target : String)
    (ps : List (String × PValue)) : Document :=
  { m with sections := m.sections.map (fun s =>
      { s with
        field_objects := formatFirstFieldIn target ps s.field_objects,
        text_objects := formatFirstTextIn target ps s.text_objects }) }

/-- The dispatch on `edit_command.edit_type` inside `apply_edit`,
operating on the deep copy. -/
def dispatchEdit (m : Document) : EditCommand → Except EditError Document
  | .rename_field target new_value => .ok (rename_field m target new_value)
  | .hide_field target => .ok (hide_field m target)
  | .show_field target => .ok (show_field m target)
  | .move_field target target_section => move_field m target target_section
  | .change_text target new_value => .ok (change_text m target new_value)
  | .hide_section target => .ok (hide_section m target)
  | .show_section target => .ok (show_section m target)
  | .format_field target ps => .ok (format_field m target ps)

/-- The `except Exception as e: raise ValueError(f"Failed to apply edit: {e}")`
wrapper: the message is wrapped, the classification kept. -/
def wrapApplyError : EditError → EditError
  | .validationError msg => .validationError ("Failed to apply edit: " ++ msg)
  | .notFoundError msg => .notFoundError ("Failed to apply edit: " ++ msg)

/-- `apply_edit`: deep-copy the caller's metadata, apply one command to
the copy, return the copy (or re-raise with a wrapped message).  The
caller's document is never touched; the edit-history append is caller
state outside the document and is not modelled. -/
def apply_edit (m : Document) (c : EditCommand) : Except EditError Document :=
  (dispatchEdit (deepCopyDoc m) c).mapError wrapApplyError

/-! ## The diff / preview engine (`create_edit_preview`)

The engine flattens both documents into `name → {type, section, data,
section_index}` maps, then appends change records block by block.  The
Python loops over `set.intersection` iterate in an unspecified set
order; here they iterate in first-insertion key order — none of the
verified properties depend on the iteration order, only on the multiset
of emitted changes.  The human-readable `description` string of each
change record is presentation-only, read by nothing, and is omitted. -/

/-- A flattened object: the `{'type', 'section', 'data', 'section_index'}`
dict, with `data` the section object itself. -/
inductive SecObj where
  | fieldO (f : FieldObject)
  | textO (t : TextObject)
deriving DecidableEq, Repr

/-- `data.get('hidden', False)`. -/
def SecObj.getHidden : SecObj → Bool
  | .fieldO f => f.hidden.getD false
  | .textO t => t.hidden.getD false

/-- `data.get('text', '')` (a field object has no `text` key). -/
def SecObj.getText : SecObj → String
  | .fieldO _ => ""
  | .textO t => t.text

/-- `data.get('formatting', {})`. -/
def SecObj.getFormatting : SecObj → List (String × PValue)
  | .fieldO f => f.formatting
  | .textO t => t.formatting

structure ObjInfo where
  type : String
  sectionName : String
  data : SecObj
  section_index : Nat
deriving DecidableEq, Repr

/-- `get_all_objects_from_sections`: field objects then text objects of
each section in order; empty names are skipped; a later object with the
same name overwrites an earlier one (dict assignment). -/
def get_all_objects_from_sections (m : Document) : List (String × ObjInfo) :=
  m.sections.foldl (fun objs s =>
    let idx := m.sections.findIdx (fun x => decide (x = s))
    let objs1 := s.field_objects.foldl (fun o fo =>
      if fo.name = "" then o
      else dictInsert fo.name
        { type := "field", sectionName := s.name, data := .fieldO fo,
          section_index := idx } o) objs
    s.text_objects.foldl (fun o t =>
      if t.name = "" then o
      else dictInsert t.name
        { type := "text", sectionName := s.name, data := .textO t,
          section_index := idx } o) objs1) []

/-- One change record of the preview: a dict with a `type`, a
presentation `description` (omitted) and the keys its block fills;
absent keys are `none`. -/
structure Change where
  type : String
  target : Option String := none
  old_value : Option String := none
  new_value : Option String := none
  sectionName : Option String := none
  old_section : Option String := none
  new_section : Option String := none
  old_formatting : Option (List (String × PValue)) := none
  new_formatting : Option (List (String × PValue)) := none
deriving DecidableEq, Repr

structure Preview where
  changes : List Change
  summary : String
deriving DecidableEq, Repr

/-- `original_names - modified_names` on the flattened key sets. -/
def removedNames (orig modified : List (String × ObjInfo)) : List String :=
  (setKeys orig).filter (fun k => decide (k ∉ setKeys modified))

/-- `modified_names - original_names`. -/
def addedNames (orig modified : List (String × ObjInfo)) : List String :=
  (setKeys modified).filter (fun k => decide (k ∉ setKeys orig))

/-- `original_names.intersection(modified_names)`, in first-insertion
order of the original document. -/
def commonKeys (orig modified : List (String × ObjInfo)) : List String :=
  (setKeys orig).filter (fun k => decide (k ∈ setKeys modified))

/-- The rename-inference block: if exactly one name disappeared and
exactly one appeared, and the two candidates share section and object
type, emit one `rename` change; otherwise emit nothing. -/
def renameChanges (orig modified : List (String × ObjInfo)) : List Change :=
  match removedNames orig modified, addedNames orig modified with
  | [old_name], [new_name] =>
      match dictGet old_name orig, dictGet new_name modified with
      | some old_obj, some new_obj =>
          if old_obj.sectionName = new_obj.sectionName ∧
             old_obj.type = new_obj.type then
            [{ type := "rename", old_value := some old_name,
               new_value := some new_name,
               sectionName := some old_obj.sectionName }]
          else []
      | _, _ => []
  | _, _ => []

/-- The visibility comparison of one common name: a `hide` / `show`
change when the `hidden` reading flipped. -/
def visibilityChangeFor (orig modified : List (String × ObjInfo))
    (obj_name : String) : Option Change :=
  match dictGet obj_name orig, dictGet obj_name modified with
  | some original_obj, some modified_obj =>
      let oh := original_obj.data.getHidden
      let mh := modified_obj.data.getHidden
      if !oh && mh then
        some { type := "hide", target := some obj_name,
               sectionName := some original_obj.sectionName }
      else if oh && !mh then
        some { type := "show", target := some obj_name,
               sectionName := some original_obj.sectionName }
      else none
  | _, _ => none

/-- The visibility block, over the common names. -/
def visibilityChanges (orig modified : List (String × ObjInfo)) : List Change :=
  (commonKeys orig modified).filterMap (visibilityChangeFor orig modified)

/-- The move comparison of one common name: a `move` change when the
owning section changed. -/
def moveChangeFor (orig modified : List (String × ObjInfo))
    (obj_name : String) : Option Change :=
  match dictGet obj_name orig, dictGet obj_name modified with
  | some original_obj, some modified_obj =>
      if original_obj.sectionName ≠ modified_obj.sectionName then
        some { type := "move", target := some obj_name,
               old_section := some original_obj.sectionName,
               new_section := some modified_obj.sectionName }
      else none
  | _, _ => none

/-- The move block, over the common names. -/
def moveChanges (orig modified : List (String × ObjInfo)) : List Change :=
  (commonKeys orig modified).filterMap (moveChangeFor orig modified)

/-- The text comparison of one common name: a `text_change` when both
sides are text-typed and the text differs. -/
def textChangeFor (orig modified : List (String × ObjInfo))
    (obj_name : String) : Option Change :=
  match dictGet obj_name orig, dictGet obj_name modified with
  | some original_obj, some modified_obj =>
      if original_obj.type = "text" ∧ modified_obj.type = "text" then
        let ot := original_obj.data.getText
        let mt := modified_obj.data.getText
        if ot ≠ mt then
          some { type := "text_change", target := some obj_name,
                 old_value := some ot, new_value := some mt,
                 sectionName := some original_obj.sectionName }
        else none
      else none
  | _, _ => none

/-- The text block, over the common names. -/
def textChanges (orig modified : List (String × ObjInfo)) : List Change :=
  (commonKeys orig modified).filterMap (textChangeFor orig modified)

/-- The formatting comparison of one common name: a `format` change
when the formatting dicts are unequal (Python dict `!=`). -/
def formatChangeFor (orig modified : List (String × ObjInfo))
    (obj_name : String) : Option Change :=
  match dictGet obj_name orig, dictGet obj_name modified with
  | some original_obj, some modified_obj =>
      let of_ := original_obj.data.getFormatting
      let mf := modified_obj.data.getFormatting
      if !(dictEq of_ mf) then
        some { type := "format", target := some obj_name,
               old_formatting := some of_, new_formatting := some mf,
               sectionName := some original_obj.sectionName }
      else none
  | _, _ => none

/-- The formatting block, over the common names. -/
def formatChanges (orig modified : List (String × ObjInfo)) : List Change :=
  (commonKeys orig modified).filterMap (formatChangeFor orig modified)

/-- The hidden-flag comparison of a positionally paired section pair,
keyed by the original section's name. -/
def sectionChangeFor (p : Section × Section) : Option Change :=
  let oh := p.1.hidden.getD false
  let mh := p.2.hidden.getD false
  if !oh && mh then
    some { type := "hide_section", target := some p.1.name }
  else if oh && !mh then
    some { type := "show_section", target := some p.1.name }
  else none

/-- The positional section block: compare `hidden` at equal indices up
to the shorter list (`zip`). -/
def sectionChanges (A B : Document) : List Change :=
  (A.sections.zip B.sections).filterMap sectionChangeFor

/-- The one-removed/one-added pair of the lineage key sets, when there
is exactly one of each. -/
def lineagePairCandidate (A B : Document) : Option (String × String) :=
  let lineage_removed := (setKeys A.field_lineage).filter
    (fun k => decide (k ∉ setKeys B.field_lineage))
  let lineage_added := (setKeys B.field_lineage).filter
    (fun k => decide (k ∉ setKeys A.field_lineage))
  match lineage_removed, lineage_added with
  | [old_name], [new_name] => some (old_name, new_name)
  | _, _ => none

/-- The legacy lineage block: re-run the one-removed/one-added rename
heuristic over the lineage key sets alone, and append its rename only
when no already-collected rename change has the same old/new pair. -/
def lineageRenameChanges (A B : Document) (prior : List Change) : List Change :=
  if A.field_lineage = [] ∧ B.field_lineage = [] then []
  else
    match lineagePairCandidate A B with
    | some (old_name, new_name) =>
        let existing_renames := prior.filter (fun c => c.type = "rename")
        if existing_renames.any (fun r =>
            decide (r.old_value = some old_name ∧
                    r.new_value = some new_name)) then []
        else
          [{ type := "rename", old_value := some old_name,
             new_value := some new_name,
             sectionName := some "Field Lineage" }]
    | none => []

/-- The changes collected before the legacy lineage block runs, in
append order. -/
def preLineageChanges (A B : Document) : List Change :=
  let original_objects := get_all_objects_from_sections A
  let modified_objects := get_all_objects_from_sections B
  renameChanges original_objects modified_objects ++
  visibilityChanges original_objects modified_objects ++
  moveChanges original_objects modified_objects ++
  textChanges original_objects modified_objects ++
  formatChanges original_objects modified_objects ++
  sectionChanges A B

/-- The summary line: `"Will make {N} change{s}: {distinct types}"`, or
`"No changes detected"` when the list is empty.  The source joins
`list(set(types))` in an unspecified set order; modelled as
first-occurrence order, which no verified property depends on. -/
def previewSummary (changes : List Change) : String :=
  match changes with
  | [] => "No changes detected"
  | _ =>
      let change_count := changes.length
      let change_types := (changes.map Change.type).dedup
      "Will make " ++ toString change_count ++ " change" ++
        (if change_count ≠ 1 then "s" else "") ++ ": " ++
        String.intercalate ", " change_types

/-- `create_edit_preview`: the full diff of two documents. -/
def create_edit_preview (A B : Document) : Preview :=
  let changes := preLineageChanges A B ++
    lineageRenameChanges A B (preLineageChanges A B)
  { changes := changes, summary := previewSummary changes }

/-! ## Observers used by the claims -/

/-- Some field object or text object of some section is named `target`. -/
def someObjectNamed (m : Document) (target : String) : Bool :=
  m.sections.any (fun s =>
    s.field_objects.any (fun fo => fo.name = target) ||
    s.text_objects.any (fun t => t.name = target))

/-- How many text objects named `name` currently carry `text`, over all
sections. -/
def countTextObjectsWithText (m : Document) (name text : String) : Nat :=
  (m.sections.map (fun s =>
    (s.text_objects.filter (fun t => t.name = name ∧ t.text = text)).length)).sum

/-- How many positions of the zipped before/after text-object lists
differ. -/
def countDiffTexts (a b : List TextObject) : Nat :=
  ((a.zip b).filter (fun p => p.1 ≠ p.2)).length

/-- The first text object named `target` of one section's list. -/
def firstTextNamed (target : String) (l : List TextObject) : Option TextObject :=
  l.find? (fun t => t.name = target)

/-! ## Example documents for counterexamples and witnesses -/

def exLineageTotal : LineageEntry :=
  { source := "db.Total", formula := "", sectionName := "Details", hidden := none }

def exDoc1 : Document :=
  { sections := [{ name := "Details", hidden := none,
                   field_objects := [{ name := "Total", hidden := none, formatting := [] }],
                   text_objects := [] }],
    field_lineage := [("Total", exLineageTotal)] }

def exDoc9 : Document :=
  { sections := [{ name := "Header", hidden := none, field_objects := [],
                   text_objects := [{ name := "T", text := "a", hidden := none, formatting := [] }] },
                 { name := "Footer", hidden := none, field_objects := [],
                   text_objects := [{ name := "T", text := "b", hidden := none, formatting := [] }] }],
    field_lineage := [] }

def exDoc10 : Document :=
  { sections := [{ name := "S", hidden := none,
                   field_objects := [{ name := "A", hidden := some false, formatting := [] }],
                   text_objects := [] }],
    field_lineage := [("A", { source := "db.A", formula := "", sectionName := "S",
                              hidden := some false })] }

def exDoc8 : Document :=
  { sections := [{ name := "Details", hidden := none,
                   field_objects := [{ name := "Amount", hidden := none, formatting := [] }],
                   text_objects := [] }],
    field_lineage := [("Amount", { source := "db.Amount", formula := "",
                                   sectionName := "Details", hidden := none })] }

/-- The pair predicate of the claims: a change record that is a
`rename` of `o` to `n`. -/
def isRenamePair (o n : String) (c : Change) : Bool :=
  decide (c.type = "rename" ∧ c.old_value = some o ∧ c.new_value = some n)

/-- How many rename changes of a diff pair `o` with `n`. -/
def countRenamePair (cs : List Change) (o n : String) : Nat :=
  (cs.filter (isRenamePair o n)).length

/-- The same-section-and-type guard of the rename-inference block, on
the two candidates of a one-removed/one-added pair. -/
def renameCandidatesMatch (orig modified : List (String × ObjInfo))
    (o n : String) : Bool :=
  match dictGet o orig, dictGet n modified with
  | some old_obj, some new_obj =>
      decide (old_obj.sectionName = new_obj.sectionName ∧
              old_obj.type = new_obj.type)
  | _, _ => false

def exDoc5A : Document :=
  { sections := [{ name := "S", hidden := none,
                   field_objects := [{ name := "Old", hidden := none, formatting := [] }],
                   text_objects := [] }],
    field_lineage := [("Old", { source := "db.O", formula := "",
                                sectionName := "S", hidden := none })] }

def exDoc5B : Document :=
  { sections := [{ name := "S", hidden := none,
                   field_objects := [{ name := "New", hidden := none, formatting := [] }],
                   text_objects := [] }],
    field_lineage := [("New", { source := "db.O", formula := "",
                                sectionName := "S", hidden := none })] }

def exDoc5A2 : Document :=
  { sections := [{ name := "S", hidden := none,
                   field_objects := [{ name := "a", hidden := none, formatting := [] },
                                     { name := "b", hidden := none, formatting := [] }],
                   text_objects := [] }],
    field_lineage := [] }

def exDoc5B2 : Document :=
  { sections := [{ name := "S", hidden := none,
                   field_objects := [{ name := "c", hidden := none, formatting := [] },
                                     { name := "d", hidden := none, formatting := [] }],
                   text_objects := [] }],
    field_lineage := [] }

def exDoc6A : Document :=
  { sections := [],
    field_lineage := [("X", { source := "db.X", formula := "",
                              sectionName := "S", hidden := none })] }

def exDoc6B : Document :=
  { sections := [],
    field_lineage := [("Y", { source := "db.X", formula := "",
                              sectionName := "S", hidden := none })] }

def exDoc6C : Document :=
  { sections := [{ name := "S", hidden := none,
                   field_objects := [{ name := "X", hidden := none, formatting := [] }],
                   text_objects := [] }],
    field_lineage := [("X", { source := "db.X", formula := "",
                              sectionName := "S", hidden := none })] }

def exDoc6D : Document :=
  { sections := [{ name := "S", hidden := none,
                   field_objects := [{ name := "Y", hidden := none, formatting := [] }],
                   text_objects := [] }],
    field_lineage := [("Y", { source := "db.X", formula := "",
                              sectionName := "S", hidden := none })] }

/-! ## The fallback parser (`_fallback_parse_command`)

The parser works on the lower-cased instruction (`command.lower()`),
extracting names with fixed regular expressions.  `import re` is
executed only inside the rename branch (line 174), making `re` a local
name of the function: the rename branch is the only branch whose
regular expressions ever run, while the hide, show, move and
change-title branches raise UnboundLocalError at their first
`re.search` call.  Each expression
is a linear sequence of literals and greedy character-class repetitions;
`matchSeq` / `searchFrom` implement Python's `re.search` semantics for
such patterns (leftmost match, greedy repetition with backtracking), and
`findQuoted` implements `re.findall(r"['\"]([^'\"]+)['\"]", …)`'s
non-overlapping scan.  The character classes are the ASCII readings of
`.` (anything but a newline), `\s`, `\w`; CPython's `str.lower()` /
`str.title()` agree with the per-character ASCII versions used here on
ASCII text. -/

def isQuoteChar (c : Char) : Bool := c = '\'' || c = '"'

def notQuoteChar (c : Char) : Bool := !(isQuoteChar c)

/-- `.` without DOTALL: any character but a newline. -/
def isDotChar (c : Char) : Bool := c ≠ '\n'

/-- `\s` (ASCII). -/
def isSpaceChar (c : Char) : Bool :=
  c = ' ' || c = '\t' || c = '\n' || c = '\r' || c = '\x0b' || c = '\x0c'

def notSpaceChar (c : Char) : Bool := !(isSpaceChar c)

/-- `\w` (ASCII). -/
def isWordChar (c : Char) : Bool := c.isAlphanum || c = '_'

/-- `[\s\w]`. -/
def isSpaceWordChar (c : Char) : Bool := isSpaceChar c || isWordChar c

/-- `command.lower()` (per-character ASCII lowering). -/
def lowerChars (s : List Char) : List Char := s.map Char.toLower

def lowered (s : String) : List Char := lowerChars s.data

/-- `str.strip()` (ASCII whitespace). -/
def stripChars (s : List Char) : List Char :=
  ((s.dropWhile isSpaceChar).reverse.dropWhile isSpaceChar).reverse

/-- `str.title()`: upper-case every alphabetic character that follows a
non-alphabetic one, lower-case the rest. -/
def titleCaseAux (prevAlpha : Bool) : List Char → List Char
  | [] => []
  | c :: rest =>
      if c.isAlpha then
        (if prevAlpha then c.toLower else c.toUpper) :: titleCaseAux true rest
      else c :: titleCaseAux false rest

def titleCase (s : List Char) : List Char := titleCaseAux false s

/-- The suffix after the first occurrence of `kw` as a substring, when
there is one. -/
def afterFirstSubstr (kw : List Char) : List Char → Option (List Char)
  | [] => if kw.isEmpty then some [] else none
  | s@(_ :: rest) =>
      if kw.isPrefixOf s then some (s.drop kw.length)
      else afterFirstSubstr kw rest

/-- `kw in s` (substring containment). -/
def containsSub (kw s : List Char) : Bool := (afterFirstSubstr kw s).isSome

/-- One item of a linear regular pattern: a literal, or a greedy
repetition of a character class with multiplicity `lo` to `hi`
(`none` = unbounded), possibly a capturing group. -/
inductive RItem where
  | lit (l : List Char)
  | rep (cls : Char → Bool) (lo : Nat) (hi : Option Nat) (capture : Bool)

/-- Greedy backtracking over the repetition counts in the given
(descending) order: the first count whose continuation matches wins. -/
def tryCounts (s : List Char) (capture : Bool)
    (k : List Char → Option (List (List Char))) :
    List Nat → Option (List (List Char))
  | [] => none
  | nn :: ns =>
      match k (s.drop nn) with
      | some caps => some (if capture then s.take nn :: caps else caps)
      | none => tryCounts s capture k ns

/-- The candidate counts `hi, hi - 1, …, lo` of a greedy repetition. -/
def descCounts (lo hi : Nat) : List Nat :=
  (List.range (hi + 1 - lo)).map (fun i => hi - i)

/-- Match a linear pattern against a prefix of the string (whatever
follows the match is ignored, as in `re.search`), returning the list of
captured groups. -/
def matchSeq : List RItem → List Char → Option (List (List Char))
  | [] => fun _ => some []
  | .lit l :: rest => fun s =>
      if l.isPrefixOf s then matchSeq rest (s.drop l.length) else none
  | .rep cls lo hi capture :: rest => fun s =>
      let run := (s.takeWhile cls).length
      let maxN := match hi with | none => run | some h1 => min h1 run
      if lo ≤ maxN then
        tryCounts s capture (matchSeq rest) (descCounts lo maxN)
      else none

/-- `re.search`: try the pattern at every start position, leftmost
first. -/
def searchFrom (items : List RItem) : List Char → Option (List (List Char))
  | [] => matchSeq items []
  | s@(_ :: rest) =>
      match matchSeq items s with
      | some caps => some caps
      | none => searchFrom items rest

/-- `rename\s+['\"]([^'\"]+)['\"][\s\w]*to\s+['\"]([^'\"]+)['\"]`. -/
def renamePattern1 : List RItem :=
  [.lit "rename".data, .rep isSpaceChar 1 none false,
   .rep isQuoteChar 1 (some 1) false, .rep notQuoteChar 1 none true,
   .rep isQuoteChar 1 (some 1) false, .rep isSpaceWordChar 0 none false,
   .lit "to".data, .rep isSpaceChar 1 none false,
   .rep isQuoteChar 1 (some 1) false, .rep notQuoteChar 1 none true,
   .rep isQuoteChar 1 (some 1) false]

/-- `rename\s+([^\s]+)[\s\w]*to\s+([^\s]+)`. -/
def renamePattern2 : List RItem :=
  [.lit "rename".data, .rep isSpaceChar 1 none false,
   .rep notSpaceChar 1 none true, .rep isSpaceWordChar 0 none false,
   .lit "to".data, .rep isSpaceChar 1 none false,
   .rep notSpaceChar 1 none true]

/-- Split at every quote character; the result always has one more
segment than the text has quotes. -/
def splitAtQuotes : List Char → List (List Char)
  | [] => [[]]
  | c :: rest =>
      let r := splitAtQuotes rest
      if isQuoteChar c then [] :: r
      else
        match r with
        | [] => [[c]]
        | seg :: segs => (c :: seg) :: segs

/-- The scan of `re.findall` over the segments that follow the current
opening quote: an opening quote pairs with the next quote when at least
one character stands between them (capture, resume after the closing
quote); an empty pair restarts at its closing quote. -/
def quotedScan : List (List Char) → List (List Char)
  | [] => []
  | [_] => []
  | s1 :: s2 :: rest =>
      if s1.isEmpty then quotedScan (s2 :: rest)
      else s1 :: quotedScan rest

/-- `re.findall(r"['\"]([^'\"]+)['\"]", s)`. -/
def findQuoted (s : List Char) : List (List Char) :=
  match splitAtQuotes s with
  | [] => []
  | _ :: segs => quotedScan segs

/-- Case-insensitive exact resolution of an extracted name against the
known names, first match wins. -/
def resolveNameCI (name : List Char) (candidates : List String) :
    Option String :=
  candidates.find? (fun f => lowerChars f.data == lowerChars name)

/-- `list(report_metadata.get('field_lineage', {}).keys())`. -/
def availableFields (m : Document) : List String := dictKeys m.field_lineage

/-- The section names, in order. -/
def availableSections (m : Document) : List String :=
  m.sections.map Section.name

/-- Every text object's name, sections in order. -/
def availableTextObjects (m : Document) : List String :=
  (m.sections.map (fun s => s.text_objects.map TextObject.name)).flatten

/-- The dict the fallback parser returns: `edit_type`, `target` and the
optional `new_value` / `target_section`. -/
structure ParsedCommand where
  edit_type : String
  target : String
  new_value : Option String := none
  target_section : Option String := none
deriving DecidableEq, Repr

/-- The two ways `_fallback_parse_command` fails.  `valueError` is the
terminal `raise ValueError(f"Could not parse command: '{command}'. …")`
of line 303, carrying the original instruction text.
`unboundLocalError` models the `UnboundLocalError` CPython raises when
a branch other than the rename branch reaches its first `re.search`
call: `import re` (line 174) appears only inside the
`if "rename" in command_lower:` branch, which makes `re` a local name
of the whole function, bound only when that branch has run — and the
elif dispatch guarantees it has not when any later branch runs. -/
inductive ParseFailure where
  | valueError (command : String)
  | unboundLocalError (localName : String)
deriving DecidableEq, Repr

/-- The rename branch: the two labelled patterns in order on the
lower-cased text (alias-cased new name), then the first two quoted
substrings of the original text (verbatim new name); the old name
resolves against field and text-object names. -/
def renameBranch (command_lower command : List Char)
    (available_fields available_text_objects : List String) :
    Option ParsedCommand :=
  let tryPattern := fun (pat : List RItem) =>
    match searchFrom pat command_lower with
    | some (old_name :: new_name :: _) =>
        match resolveNameCI old_name (available_fields ++ available_text_objects) with
        | some target =>
            if target = "" then none
            else some { edit_type := "rename_field", target := target,
                        new_value := some (String.mk (titleCase new_name)) }
        | none => none
    | _ => none
  match tryPattern renamePattern1 with
  | some r => some r
  | none =>
      match tryPattern renamePattern2 with
      | some r => some r
      | none =>
          match findQuoted command with
          | old_name :: new_name :: _ =>
              match resolveNameCI old_name
                  (available_fields ++ available_text_objects) with
              | some target =>
                  if target = "" then none
                  else some { edit_type := "rename_field", target := target,
                              new_value := some (String.mk new_name) }
              | none => none
          | _ => none

/-- `_fallback_parse_command`: keyword dispatch with priority
rename > hide > show > move > (change ∧ title).  Only the rename branch
can run its regular expressions — it is the one branch containing
`import re` — and when it produces no command control falls through the
whole elif chain to the terminal ValueError with the original text.
The hide, show, move and change-title branches each begin with an
`re.search` call, so dispatching into any of them raises
UnboundLocalError on the unbound local `re`; their remaining code
(lines 225–300) is unreachable.  An instruction containing none of the
keywords falls directly to the terminal ValueError. -/
def fallback_parse_command (command : String) (m : Document) :
    Except ParseFailure ParsedCommand :=
  let command_lower := lowered command
  if containsSub "rename".data command_lower then
    match renameBranch command_lower command.data
        (availableFields m) (availableTextObjects m) with
    | some r => Except.ok r
    | none => Except.error (.valueError command)
  else if containsSub "hide".data command_lower then
    Except.error (.unboundLocalError "re")
  else if containsSub "show".data command_lower then
    Except.error (.unboundLocalError "re")
  else if containsSub "move".data command_lower then
    Except.error (.unboundLocalError "re")
  else if containsSub "change".data command_lower &&
          containsSub "title".data command_lower then
    Except.error (.unboundLocalError "re")
  else
    Except.error (.valueError command)

/-! ## Dictionary and deep-copy lemmas -/

theorem dictGet_insert_self (k : String) (v : α) (l : List (String × α)) :
    dictGet k (dictInsert k v l) = some v := by
  induction l with
  | nil => simp [dictInsert, dictGet]
  | cons p rest ih =>
      by_cases h : p.1 = k
      · simp [dictInsert, dictGet, h]
      · simp [dictInsert, dictGet, h, ih]

theorem dictGet_insert_ne (k k' : String) (v : α) (l : List (String × α))
    (h : k' ≠ k) : dictGet k (dictInsert k' v l) = dictGet k l := by
  induction l with
  | nil => simp [dictInsert, dictGet, h]
  | cons p rest ih =>
      by_cases hp : p.1 = k'
      · simp [dictInsert, dictGet, hp, h]
      · simp [dictInsert, dictGet, hp, ih]

theorem dictGet_remove_self (k : String) (l : List (String × α))
    (h : (dictKeys l).Nodup) : dictGet k (dictRemove k l) = none := by
  induction l with
  | nil => simp [dictRemove, dictGet]
  | cons p rest ih =>
      simp only [dictKeys, List.map_cons, List.nodup_cons] at h
      by_cases hp : p.1 = k
      · subst hp
        cases hg : dictGet p.1 rest with
        | none => simp [dictRemove, hg]
        | some v =>
            exfalso
            apply h.1
            clear ih h
            induction rest with
            | nil => simp [dictGet] at hg
            | cons q rest' ih' =>
                by_cases hq : q.1 = p.1
                · simp [dictKeys, hq]
                · simp only [dictGet, hq, if_false] at hg
                  simp [dictKeys] at ih' ⊢
                  right
                  have := ih' (by
                    simpa [dictKeys] using hg)
                  simpa [dictKeys] using this
      · simp [dictRemove, hp, dictGet, ih h.2]

theorem dictGet_isSome_of_mem_keys (k : String) (l : List (String × α))
    (h : k ∈ dictKeys l) : ∃ v, dictGet k l = some v := by
  induction l with
  | nil => simp [dictKeys] at h
  | cons p rest ih =>
      by_cases hp : p.1 = k
      · exact ⟨p.2, by simp [dictGet, hp]⟩
      · simp only [dictKeys, List.map_cons, List.mem_cons] at h
        rcases h with h | h
        · exact absurd h.symm hp
        · simpa [dictGet, hp] using ih h

theorem deepCopyFormatting_eq (f : List (String × PValue)) :
    deepCopyFormatting f = f := by
  simp [deepCopyFormatting]

theorem deepCopyFieldObject_eq (f : FieldObject) :
    deepCopyFieldObject f = f := by
  cases f; simp [deepCopyFieldObject, deepCopyFormatting_eq]

theorem deepCopyTextObject_eq (t : TextObject) :
    deepCopyTextObject t = t := by
  cases t; simp [deepCopyTextObject, deepCopyFormatting_eq]

theorem map_deepCopyFieldObject (l : List FieldObject) :
    l.map deepCopyFieldObject = l := by
  induction l with
  | nil => rfl
  | cons a t ih => simp [deepCopyFieldObject_eq, ih]

theorem map_deepCopyTextObject (l : List TextObject) :
    l.map deepCopyTextObject = l := by
  induction l with
  | nil => rfl
  | cons a t ih => simp [deepCopyTextObject_eq, ih]

theorem deepCopySection_eq (s : Section) : deepCopySection s = s := by
  cases s
  simp [deepCopySection, map_deepCopyFieldObject, map_deepCopyTextObject]

theorem deepCopyLineage_eq (e : LineageEntry) : deepCopyLineage e = e := by
  cases e; simp [deepCopyLineage]

theorem map_deepCopySection (l : List Section) :
    l.map deepCopySection = l := by
  induction l with
  | nil => rfl
  | cons a t ih => simp [deepCopySection_eq, ih]

theorem deepCopyDoc_eq (m : Document) : deepCopyDoc m = m := by
  cases m
  simp [deepCopyDoc, map_deepCopySection, deepCopyLineage_eq]

/-! ## C1 — rename removes the target name everywhere -/

theorem renameFieldObjects_no_target (target new_value : String)
    (hne : new_value ≠ target) (l : List FieldObject) :
    (l.map (fun fo =>
      if fo.name = target then { fo with name := new_value } else fo)).any
        (fun fo => fo.name = target) = false := by
  induction l with
  | nil => rfl
  | cons fo rest ih =>
      by_cases h : fo.name = target
      · simp [h, hne, ih]
      · simp [h, ih]

theorem renameTextObjects_no_target (target new_value : String)
    (hne : new_value ≠ target) (l : List TextObject) :
    (l.map (fun t =>
      if t.name = target then { t with name := new_value } else t)).any
        (fun t => t.name = target) = false := by
  induction l with
  | nil => rfl
  | cons t rest ih =>
      by_cases h : t.name = target
      · simp [h, hne, ih]
      · simp [h, ih]

/-- C1 as stated is false when `new_value = target`: renaming `Total`
to `Total` in a document whose lineage holds `Total` leaves a lineage
key (and a field object) named `Total` after `apply_edit`, although the
target was present beforehand. -/
theorem C1_counterexample :
    dictContains "Total" exDoc1.field_lineage = true ∧
    apply_edit exDoc1 (.rename_field "Total" "Total") =
      .ok (rename_field exDoc1 "Total" "Total") ∧
    dictContains "Total" (rename_field exDoc1 "Total" "Total").field_lineage = true ∧
    someObjectNamed (rename_field exDoc1 "Total" "Total") "Total" = true :=
  ⟨by decide, rfl, by decide, by decide⟩

/-- C1 (amended with `new_value ≠ target`): for every well-formed
document and every rename target present in the lineage map or in some
section's objects, after `apply_edit` with a new value different from
the target, no section field or text object is named `target` and no
lineage key equals `target`. -/
theorem C1_rename_removes_target (m : Document) (target new_value : String)
    (hwf : m.WF) (hne : new_value ≠ target)
    (_hpresent : dictContains target m.field_lineage = true ∨
      someObjectNamed m target = true)
    (d' : Document)
    (happ : apply_edit m (.rename_field target new_value) = .ok d') :
    dictContains target d'.field_lineage = false ∧
    someObjectNamed d' target = false := by
  have hd : d' = rename_field m target new_value := by
    simpa [apply_edit, dispatchEdit, Except.mapError, deepCopyDoc_eq] using happ.symm
  subst hd
  constructor
  · show (dictGet target (rename_field m target new_value).field_lineage).isSome = false
    unfold rename_field
    cases hg : dictGet target m.field_lineage with
    | none => simp [hg]
    | some v =>
        simp only [hg]
        rw [dictGet_insert_ne _ _ _ _ hne, dictGet_remove_self _ _ hwf]
        rfl
  · unfold someObjectNamed rename_field
    rw [List.any_map, List.any_eq_false]
    intro s _hs
    dsimp only [Function.comp]
    rw [renameFieldObjects_no_target target new_value hne s.field_objects,
        renameTextObjects_no_target target new_value hne s.text_objects]
    simp

/-- C1 witness: a concrete rename to a fresh name clears the target
from the lineage and the sections. -/
theorem C1_witness :
    dictContains "Total" (rename_field exDoc1 "Total" "Grand").field_lineage = false ∧
    someObjectNamed (rename_field exDoc1 "Total" "Grand") "Total" = false :=
  C1_rename_removes_target exDoc1 "Total" "Grand" (by decide) (by decide)
    (Or.inl (by decide)) (rename_field exDoc1 "Total" "Grand") rfl

/-! ## C2 — move without a target section is a ValidationError -/

/-- C2: for every document and target, a `move_field` whose
`target_section` is absent (None or the empty string, both falsy) makes
`apply_edit` raise the ValidationError, whether or not the target field
exists. -/
theorem C2_move_without_target_section (m : Document) (target : String)
    (ts : Option String) (h : ts = none ∨ ts = some "") :
    apply_edit m (.move_field target ts) =
      .error (.validationError
        "Failed to apply edit: Target section required for move operation") := by
  rcases h with h | h <;> subst h <;> rfl

/-- C2 witness at a concrete document and target. -/
theorem C2_witness :
    apply_edit exDoc1 (.move_field "Total" none) =
      .error (.validationError
        "Failed to apply edit: Target section required for move operation") :=
  C2_move_without_target_section exDoc1 "Total" none (Or.inl rfl)

/-! ## C3 — the applicator never mutates its input -/

/-- C3: `apply_edit` hands the handlers a deep copy that is equal to
(and in the heap independent of) the caller's document, and is the pure
function of `(document, command)` obtained by dispatching on the copy;
in the pure state-passing model the caller's document is unchanged by
construction, and an error outcome returns no document at all, so no
partially-mutated state is ever visible. -/
theorem C3_apply_edit_pure (m : Document) (c : EditCommand) :
    deepCopyDoc m = m ∧
    apply_edit m c = (dispatchEdit m c).mapError wrapApplyError :=
  ⟨deepCopyDoc_eq m, by rw [apply_edit, deepCopyDoc_eq]⟩

/-! ## C9 — change_text hits the first text object of every section -/

/-- C9 as stated is false: with a like-named text object in two
sections, `change_text` overwrites both (one per section), not exactly
one. -/
theorem C9_counterexample :
    countTextObjectsWithText exDoc9 "T" "new" = 0 ∧
    apply_edit exDoc9 (.change_text "T" "new") =
      .ok (change_text exDoc9 "T" "new") ∧
    countTextObjectsWithText (change_text exDoc9 "T" "new") "T" "new" = 2 :=
  ⟨by decide, rfl, by decide⟩

theorem changeTextInList_no_match (target new_value : String)
    (l : List TextObject) (h : ∀ t ∈ l, t.name ≠ target) :
    changeTextInList target new_value l = l := by
  induction l with
  | nil => rfl
  | cons t rest ih =>
      have h1 : t.name ≠ target := h t (List.mem_cons_self t rest)
      simp only [changeTextInList, if_neg h1]
      rw [ih (fun t' ht' => h t' (List.mem_cons_of_mem t ht'))]

theorem countDiffTexts_self (l : List TextObject) :
    countDiffTexts l l = 0 := by
  induction l with
  | nil => rfl
  | cons a rest ih => simpa [countDiffTexts] using ih

theorem countDiffTexts_cons (a b : TextObject) (l l' : List TextObject) :
    countDiffTexts (a :: l) (b :: l') =
      (if a = b then 0 else 1) + countDiffTexts l l' := by
  by_cases h : a = b <;> simp [countDiffTexts, h, Nat.add_comm]

theorem textObject_update_eq (t : TextObject) (nv : String) :
    (t = { t with text := nv }) ↔ t.text = nv := by
  cases t; simp

theorem countDiffTexts_changeTextInList (target new_value : String)
    (l : List TextObject) :
    countDiffTexts l (changeTextInList target new_value l) =
      (match firstTextNamed target l with
       | some t => if t.text = new_value then 0 else 1
       | none => 0) := by
  induction l with
  | nil => rfl
  | cons t rest ih =>
      by_cases h : t.name = target
      · have hfind : firstTextNamed target (t :: rest) = some t :=
          List.find?_cons_of_pos _ (by simpa using h)
        simp only [hfind]
        simp only [changeTextInList]
        rw [if_pos h, countDiffTexts_cons, countDiffTexts_self]
        by_cases hv : t.text = new_value
        · rw [if_pos ((textObject_update_eq t new_value).2 hv), if_pos hv]
        · rw [if_neg (fun hEq => hv ((textObject_update_eq t new_value).1 hEq)),
            if_neg hv]
      · have hfind : firstTextNamed target (t :: rest) =
            firstTextNamed target rest :=
          List.find?_cons_of_neg _ (by simpa using h)
        simp only [hfind]
        simp only [changeTextInList]
        rw [if_neg h, countDiffTexts_cons, if_pos rfl]
        simpa using ih

/-- C9 (amended): `change_text` overwrites the text of the first
matching text object **within each** section (the per-section search
stops at the first match, but the section loop is not short-circuited),
and is a no-op, not an error, when no section contains a text object
named `target`; within one section at most one object changes, and
exactly one iff the section has a match whose text differs from the new
value. -/
theorem C9_change_text (m : Document) (target new_value : String) :
    apply_edit m (.change_text target new_value) =
      .ok (change_text m target new_value) ∧
    ((∀ s ∈ m.sections, ∀ t ∈ s.text_objects, t.name ≠ target) →
      change_text m target new_value = m) ∧
    (∀ l : List TextObject,
      countDiffTexts l (changeTextInList target new_value l) =
        (match firstTextNamed target l with
         | some t => if t.text = new_value then 0 else 1
         | none => 0)) := by
  refine ⟨?_, ?_, fun l => countDiffTexts_changeTextInList target new_value l⟩
  · show (dispatchEdit (deepCopyDoc m) _).mapError wrapApplyError = _
    rw [deepCopyDoc_eq]
    rfl
  · intro h
    unfold change_text
    have hss : ∀ s ∈ m.sections,
        ({ s with text_objects :=
            changeTextInList target new_value s.text_objects } : Section) = s := by
      intro s hs
      have hl := changeTextInList_no_match target new_value s.text_objects (h s hs)
      cases s
      simp_all
    cases m with
    | mk secs fl =>
        simp only [Document.mk.injEq, and_true]
        calc secs.map _ = secs.map id := List.map_congr_left (fun s hs => hss s hs)
          _ = secs := List.map_id secs

/-- C9 witness: on a document with no text object named `Q`, the
command is a no-op. -/
theorem C9_witness :
    change_text exDoc9 "Q" "z" = exDoc9 :=
  (C9_change_text exDoc9 "Q" "z").2.1 (by decide)

/-! ## C10 — show_field deletes the hidden key outright -/

/-- C10: after `apply_edit` of a `show_field`, the lineage entry of the
target (when present) and every field object named `target` carry no
`hidden` entry at all — the key is popped, not set to false — so an
explicit `hidden: false` marker is erased rather than restored. -/
theorem C10_show_field_deletes_hidden (m : Document) (x : String)
    (d' : Document) (happ : apply_edit m (.show_field x) = .ok d') :
    (∀ e, dictGet x d'.field_lineage = some e → e.hidden = none) ∧
    (∀ s ∈ d'.sections, ∀ fo ∈ s.field_objects, fo.name = x →
      fo.hidden = none) := by
  have hd : d' = show_field m x := by
    simpa [apply_edit, dispatchEdit, Except.mapError, deepCopyDoc_eq] using happ.symm
  subst hd
  constructor
  · intro e he
    have hfl : (show_field m x).field_lineage =
        match dictGet x m.field_lineage with
        | some e0 => dictInsert x { e0 with hidden := none } m.field_lineage
        | none => m.field_lineage := rfl
    rw [hfl] at he
    cases hg : dictGet x m.field_lineage with
    | none =>
        simp only [hg] at he
        exact Option.noConfusion he
    | some v =>
        simp only [hg, dictGet_insert_self] at he
        cases he
        rfl
  · intro s hs fo hfo hname
    unfold show_field at hs
    simp only [List.mem_map] at hs
    obtain ⟨s0, _hs0, rfl⟩ := hs
    simp only [List.mem_map] at hfo
    obtain ⟨fo0, _hfo0, rfl⟩ := hfo
    by_cases h : fo0.name = x
    · simp [h]
    · simp only [if_neg h]
      simp only [if_neg h] at hname
      exact absurd hname h

/-- C10 witness: a field explicitly marked `hidden: false` has the key
deleted by `show_field`. -/
theorem C10_witness :
    ({ source := "db.A", formula := "", sectionName := "S",
       hidden := none } : LineageEntry).hidden = none :=
  (C10_show_field_deletes_hidden exDoc10 "A"
      (show_field (deepCopyDoc exDoc10) "A") rfl).1
    { source := "db.A", formula := "", sectionName := "S", hidden := none }
    (by decide)

/-! ## C4 — diffing a document against itself is empty -/

theorem filter_not_mem_self (l : List String) :
    l.filter (fun k => decide (k ∉ l)) = [] := by
  rw [List.filter_eq_nil_iff]
  intro k hk
  simp [hk]

theorem dictEq_self [DecidableEq α] (a : List (String × α)) :
    dictEq a a = true := by
  simp [dictEq, List.all_eq_true]

theorem removedNames_self (F : List (String × ObjInfo)) :
    removedNames F F = [] :=
  filter_not_mem_self (setKeys F)

theorem addedNames_self (F : List (String × ObjInfo)) :
    addedNames F F = [] :=
  filter_not_mem_self (setKeys F)

theorem renameChanges_self (F : List (String × ObjInfo)) :
    renameChanges F F = [] := by
  unfold renameChanges
  rw [removedNames_self, addedNames_self]

theorem visibilityChangeFor_self (F : List (String × ObjInfo)) (k : String) :
    visibilityChangeFor F F k = none := by
  unfold visibilityChangeFor
  cases hg : dictGet k F with
  | none => rfl
  | some oo => cases h : oo.data.getHidden <;> simp [h]

theorem moveChangeFor_self (F : List (String × ObjInfo)) (k : String) :
    moveChangeFor F F k = none := by
  unfold moveChangeFor
  cases hg : dictGet k F with
  | none => rfl
  | some oo => simp

theorem textChangeFor_self (F : List (String × ObjInfo)) (k : String) :
    textChangeFor F F k = none := by
  unfold textChangeFor
  cases hg : dictGet k F with
  | none => rfl
  | some oo => simp

theorem formatChangeFor_self (F : List (String × ObjInfo)) (k : String) :
    formatChangeFor F F k = none := by
  unfold formatChangeFor
  cases hg : dictGet k F with
  | none => rfl
  | some oo => simp [dictEq_self]

theorem mem_zip_self {l : List α} {p : α × α} (h : p ∈ l.zip l) :
    p.1 = p.2 := by
  induction l with
  | nil => cases h
  | cons a t ih =>
      rw [List.zip_cons_cons, List.mem_cons] at h
      rcases h with h | h
      · rw [h]
      · exact ih h

theorem sectionChanges_self (A : Document) : sectionChanges A A = [] := by
  unfold sectionChanges
  rw [List.filterMap_eq_nil_iff]
  intro p hp
  have hpp := mem_zip_self hp
  unfold sectionChangeFor
  rw [hpp]
  cases h : p.2.hidden.getD false <;> simp [h]

theorem lineagePairCandidate_self (A : Document) :
    lineagePairCandidate A A = none := by
  unfold lineagePairCandidate
  rw [filter_not_mem_self]

theorem lineageRenameChanges_self (A : Document) (prior : List Change) :
    lineageRenameChanges A A prior = [] := by
  unfold lineageRenameChanges
  by_cases h : A.field_lineage = [] ∧ A.field_lineage = []
  · simp [h.1]
  · rw [if_neg h, lineagePairCandidate_self]

theorem preLineageChanges_self (D : Document) : preLineageChanges D D = [] := by
  simp only [preLineageChanges, visibilityChanges, moveChanges, textChanges,
    formatChanges]
  rw [renameChanges_self, sectionChanges_self,
    List.filterMap_eq_nil_iff.2 (fun k _ => visibilityChangeFor_self _ k),
    List.filterMap_eq_nil_iff.2 (fun k _ => moveChangeFor_self _ k),
    List.filterMap_eq_nil_iff.2 (fun k _ => textChangeFor_self _ k),
    List.filterMap_eq_nil_iff.2 (fun k _ => formatChangeFor_self _ k)]
  rfl

/-- C4: for every document, diffing it against itself yields an empty
change list (no change of any type is emitted) and the summary
`"No changes detected"`. -/
theorem C4_diff_self (D : Document) :
    create_edit_preview D D = { changes := [], summary := "No changes detected" } := by
  unfold create_edit_preview
  rw [preLineageChanges_self, lineageRenameChanges_self]
  rfl

/-! ## C5 / C6 — rename inference and the lineage rename block -/

theorem visibilityChangeFor_type {F G : List (String × ObjInfo)} {k : String}
    {c : Change} (h : visibilityChangeFor F G k = some c) :
    c.type = "hide" ∨ c.type = "show" := by
  unfold visibilityChangeFor at h
  rcases h1 : dictGet k F with _ | oo <;> rcases h2 : dictGet k G with _ | mo <;>
    rw [h1, h2] at h <;> try exact Option.noConfusion h
  all_goals dsimp only at h
  all_goals split_ifs at h with hc1 hc2
  · cases h; left; rfl
  · cases h; right; rfl

theorem moveChangeFor_type {F G : List (String × ObjInfo)} {k : String}
    {c : Change} (h : moveChangeFor F G k = some c) : c.type = "move" := by
  unfold moveChangeFor at h
  rcases h1 : dictGet k F with _ | oo <;> rcases h2 : dictGet k G with _ | mo <;>
    rw [h1, h2] at h <;> try exact Option.noConfusion h
  all_goals dsimp only at h
  all_goals split_ifs at h with hc1
  · cases h; rfl

theorem textChangeFor_type {F G : List (String × ObjInfo)} {k : String}
    {c : Change} (h : textChangeFor F G k = some c) : c.type = "text_change" := by
  unfold textChangeFor at h
  rcases h1 : dictGet k F with _ | oo <;> rcases h2 : dictGet k G with _ | mo <;>
    rw [h1, h2] at h <;> try exact Option.noConfusion h
  all_goals dsimp only at h
  all_goals split_ifs at h with hc1 hc2
  · cases h; rfl

theorem formatChangeFor_type {F G : List (String × ObjInfo)} {k : String}
    {c : Change} (h : formatChangeFor F G k = some c) : c.type = "format" := by
  unfold formatChangeFor at h
  rcases h1 : dictGet k F with _ | oo <;> rcases h2 : dictGet k G with _ | mo <;>
    rw [h1, h2] at h <;> try exact Option.noConfusion h
  all_goals dsimp only at h
  all_goals split_ifs at h with hc1
  · cases h; rfl

theorem sectionChangeFor_type {p : Section × Section} {c : Change}
    (h : sectionChangeFor p = some c) :
    c.type = "hide_section" ∨ c.type = "show_section" := by
  unfold sectionChangeFor at h
  dsimp only at h
  split_ifs at h with hc1 hc2
  · cases h; left; rfl
  · cases h; right; rfl

theorem visibilityChanges_no_rename (F G : List (String × ObjInfo)) :
    ∀ c ∈ visibilityChanges F G, c.type ≠ "rename" := by
  intro c hc
  rw [visibilityChanges, List.mem_filterMap] at hc
  obtain ⟨k, _, hk⟩ := hc
  rcases visibilityChangeFor_type hk with h | h <;> simp [h]

theorem moveChanges_no_rename (F G : List (String × ObjInfo)) :
    ∀ c ∈ moveChanges F G, c.type ≠ "rename" := by
  intro c hc
  rw [moveChanges, List.mem_filterMap] at hc
  obtain ⟨k, _, hk⟩ := hc
  simp [moveChangeFor_type hk]

theorem textChanges_no_rename (F G : List (String × ObjInfo)) :
    ∀ c ∈ textChanges F G, c.type ≠ "rename" := by
  intro c hc
  rw [textChanges, List.mem_filterMap] at hc
  obtain ⟨k, _, hk⟩ := hc
  simp [textChangeFor_type hk]

theorem formatChanges_no_rename (F G : List (String × ObjInfo)) :
    ∀ c ∈ formatChanges F G, c.type ≠ "rename" := by
  intro c hc
  rw [formatChanges, List.mem_filterMap] at hc
  obtain ⟨k, _, hk⟩ := hc
  simp [formatChangeFor_type hk]

theorem sectionChanges_no_rename (A B : Document) :
    ∀ c ∈ sectionChanges A B, c.type ≠ "rename" := by
  intro c hc
  rw [sectionChanges, List.mem_filterMap] at hc
  obtain ⟨p, _, hp⟩ := hc
  rcases sectionChangeFor_type hp with h | h <;> simp [h]

theorem filter_isRenamePair_eq_nil {cs : List Change} (o n : String)
    (h : ∀ c ∈ cs, c.type ≠ "rename") :
    cs.filter (isRenamePair o n) = [] := by
  rw [List.filter_eq_nil_iff]
  intro c hc
  simp only [isRenamePair, decide_eq_true_eq, not_and]
  intro hty
  exact absurd hty (h c hc)

/-- Every form the rename-inference block can produce: nothing, or one
`rename` change record. -/
theorem renameChanges_cases (F G : List (String × ObjInfo)) :
    renameChanges F G = [] ∨
    ∃ o n sec, renameChanges F G =
      [{ type := "rename", old_value := some o, new_value := some n,
         sectionName := some sec }] := by
  rcases h1 : removedNames F G with _ | ⟨o, _ | ⟨o2, tl2⟩⟩
  · left; unfold renameChanges; rw [h1]
  · rcases h2 : addedNames F G with _ | ⟨n1, _ | ⟨n2, tl4⟩⟩
    · left; unfold renameChanges; rw [h1, h2]
    · have hred : renameChanges F G =
          (match dictGet o F, dictGet n1 G with
           | some old_obj, some new_obj =>
               if old_obj.sectionName = new_obj.sectionName ∧
                  old_obj.type = new_obj.type then
                 [{ type := "rename", old_value := some o,
                    new_value := some n1,
                    sectionName := some old_obj.sectionName }]
               else []
           | _, _ => []) := by
        unfold renameChanges
        rw [h1, h2]
      rw [hred]
      rcases h3 : dictGet o F with _ | oo
      · left; rfl
      rcases h4 : dictGet n1 G with _ | mo
      · left; rfl
      by_cases hm : oo.sectionName = mo.sectionName ∧ oo.type = mo.type
      · right
        exact ⟨o, n1, oo.sectionName, if_pos hm⟩
      · left
        exact if_neg hm
    · left; unfold renameChanges; rw [h1, h2]
  · left; unfold renameChanges; rw [h1]

/-- The rename-inference block under the one-removed/one-added and
matching-candidates hypotheses: exactly one rename change. -/
theorem renameChanges_of_single (F G : List (String × ObjInfo)) (o n : String)
    (h1 : removedNames F G = [o]) (h2 : addedNames F G = [n])
    (hm : renameCandidatesMatch F G o n = true) :
    ∃ sec, renameChanges F G =
      [{ type := "rename", old_value := some o, new_value := some n,
         sectionName := some sec }] := by
  have hred : renameChanges F G =
      (match dictGet o F, dictGet n G with
       | some old_obj, some new_obj =>
           if old_obj.sectionName = new_obj.sectionName ∧
              old_obj.type = new_obj.type then
             [{ type := "rename", old_value := some o, new_value := some n,
                sectionName := some old_obj.sectionName }]
           else []
       | _, _ => []) := by
    unfold renameChanges
    rw [h1, h2]
  unfold renameCandidatesMatch at hm
  rw [hred]
  rcases h3 : dictGet o F with _ | oo
  · rw [h3] at hm; exact absurd hm (by simp)
  rcases h4 : dictGet n G with _ | mo
  · rw [h3, h4] at hm; exact absurd hm (by simp)
  rw [h3, h4] at hm
  simp only [decide_eq_true_eq] at hm
  exact ⟨oo.sectionName, if_pos hm⟩

theorem filter_isRenamePair_preLineage (A B : Document) (o n : String) :
    (preLineageChanges A B).filter (isRenamePair o n) =
      (renameChanges (get_all_objects_from_sections A)
          (get_all_objects_from_sections B)).filter (isRenamePair o n) := by
  simp only [preLineageChanges]
  simp only [List.filter_append]
  rw [filter_isRenamePair_eq_nil o n (visibilityChanges_no_rename _ _),
    filter_isRenamePair_eq_nil o n (moveChanges_no_rename _ _),
    filter_isRenamePair_eq_nil o n (textChanges_no_rename _ _),
    filter_isRenamePair_eq_nil o n (formatChanges_no_rename _ _),
    filter_isRenamePair_eq_nil o n (sectionChanges_no_rename _ _)]
  simp

theorem lineageRenameChanges_length_le (A B : Document) (prior : List Change) :
    (lineageRenameChanges A B prior).length ≤ 1 := by
  unfold lineageRenameChanges
  split_ifs with hemp
  · simp
  · rcases hc : lineagePairCandidate A B with _ | ⟨o, n⟩ <;> simp only [hc]
    · simp
    · split_ifs with hany <;> simp

/-- The lineage block never re-emits an old/new pair that an
already-collected rename change carries. -/
theorem lineageRenameChanges_filter_pair {A B : Document}
    {prior : List Change} {o n : String}
    (hmem : ∃ c ∈ prior, c.type = "rename" ∧ c.old_value = some o ∧
      c.new_value = some n) :
    (lineageRenameChanges A B prior).filter (isRenamePair o n) = [] := by
  obtain ⟨c0, hc0, hty, hov, hnv⟩ := hmem
  unfold lineageRenameChanges
  split_ifs with hemp
  · rfl
  · rcases hc : lineagePairCandidate A B with _ | ⟨o', n'⟩ <;> simp only [hc]
    · rfl
    · split_ifs with hany
      · rfl
      · by_cases hop : o' = o ∧ n' = n
        · exfalso
          apply hany
          rw [List.any_eq_true]
          refine ⟨c0, List.mem_filter.2 ⟨hc0, by simp [hty]⟩, ?_⟩
          simp [hov, hnv, hop.1, hop.2]
        · rcases not_and_or.1 hop with hh | hh <;>
            simp [List.filter_cons, isRenamePair, hh]

/-- C5: over the flattened before/after object maps, exactly one
disappeared name and exactly one appeared name sharing section and
object type yield exactly one `rename` change pairing them in the whole
diff; two or more disappeared (or appeared) names make the
section-object heuristic infer no rename at all. -/
theorem C5_rename_inference (A B : Document) :
    (∀ o n,
      removedNames (get_all_objects_from_sections A)
        (get_all_objects_from_sections B) = [o] →
      addedNames (get_all_objects_from_sections A)
        (get_all_objects_from_sections B) = [n] →
      renameCandidatesMatch (get_all_objects_from_sections A)
        (get_all_objects_from_sections B) o n = true →
      countRenamePair (create_edit_preview A B).changes o n = 1) ∧
    (2 ≤ (removedNames (get_all_objects_from_sections A)
        (get_all_objects_from_sections B)).length ∨
     2 ≤ (addedNames (get_all_objects_from_sections A)
        (get_all_objects_from_sections B)).length →
      renameChanges (get_all_objects_from_sections A)
        (get_all_objects_from_sections B) = []) := by
  constructor
  · intro o n h1 h2 hm
    obtain ⟨sec, hrw⟩ :=
      renameChanges_of_single _ _ o n h1 h2 hm
    have hmem : ∃ c ∈ preLineageChanges A B, c.type = "rename" ∧
        c.old_value = some o ∧ c.new_value = some n := by
      refine ⟨{ type := "rename", old_value := some o, new_value := some n,
                sectionName := some sec }, ?_, rfl, rfl, rfl⟩
      simp only [preLineageChanges]
      iterate 5 apply List.mem_append_left
      rw [hrw]
      exact List.mem_cons_self _ _
    unfold countRenamePair create_edit_preview
    dsimp only
    rw [List.filter_append, filter_isRenamePair_preLineage, hrw,
      lineageRenameChanges_filter_pair hmem]
    simp [isRenamePair]
  · intro hge
    rcases h1 : removedNames (get_all_objects_from_sections A)
        (get_all_objects_from_sections B) with _ | ⟨o, _ | ⟨o2, tl⟩⟩
    · unfold renameChanges; rw [h1]
    · rcases h2 : addedNames (get_all_objects_from_sections A)
          (get_all_objects_from_sections B) with _ | ⟨n1, _ | ⟨n2, tl2⟩⟩
      · unfold renameChanges; rw [h1, h2]
      · exfalso
        rw [h1, h2] at hge
        simp at hge
      · unfold renameChanges; rw [h1, h2]
    · unfold renameChanges; rw [h1]

/-- C5 witness: a one-field rename is inferred exactly once; a
two-field simultaneous rename is not inferred from the section
objects. -/
theorem C5_witness :
    countRenamePair (create_edit_preview exDoc5A exDoc5B).changes "Old" "New" = 1 ∧
    renameChanges (get_all_objects_from_sections exDoc5A2)
      (get_all_objects_from_sections exDoc5B2) = [] :=
  ⟨(C5_rename_inference exDoc5A exDoc5B).1 "Old" "New"
      (by decide) (by decide) (by decide),
   (C5_rename_inference exDoc5A2 exDoc5B2).2 (Or.inl (by decide))⟩

/-- No pair of documents makes the same logical rename (same old name
and same new name) appear as two rename changes in one diff — the
lineage block's already-reported check suppresses exactly the equal
pairs, so every diff carries at most one rename change per
(old, new) pair. -/
theorem countRenamePair_le_one (A B : Document) (o n : String) :
    countRenamePair (create_edit_preview A B).changes o n ≤ 1 := by
  unfold countRenamePair create_edit_preview
  dsimp only
  rw [List.filter_append, List.length_append, filter_isRenamePair_preLineage]
  by_cases hex : ∃ c ∈ preLineageChanges A B, c.type = "rename" ∧
      c.old_value = some o ∧ c.new_value = some n
  · rw [lineageRenameChanges_filter_pair hex]
    rcases renameChanges_cases (get_all_objects_from_sections A)
        (get_all_objects_from_sections B) with hr | ⟨o', n', sec, hr⟩ <;>
      rw [hr]
    · simp
    · simpa using List.length_filter_le (isRenamePair o n)
        [{ type := "rename", old_value := some o', new_value := some n',
           sectionName := some sec }]
  · have h0 : (renameChanges (get_all_objects_from_sections A)
        (get_all_objects_from_sections B)).filter (isRenamePair o n) = [] := by
      rw [List.filter_eq_nil_iff]
      intro c hc hpair
      apply hex
      refine ⟨c, ?_, ?_⟩
      · simp only [preLineageChanges]
        iterate 5 apply List.mem_append_left
        exact hc
      · simpa [isRenamePair] using hpair
    rw [h0]
    simp only [List.length_nil, Nat.zero_add]
    exact Nat.le_trans (List.length_filter_le _ _)
      (lineageRenameChanges_length_le A B _)

/-- C6 (amended): the legacy lineage check re-runs the
one-removed/one-added heuristic over the lineage key sets alone and
appends a second `rename` change, labelled as originating from the
field lineage, whenever the pair it finds is not already reported by
the section-object heuristic; a pair equal to an already-reported
rename is suppressed, so the same logical rename (same old and new
name) never appears twice — only renames with differing pairs can
coexist. -/
theorem C6_lineage_rename_appended (A B : Document) (o n : String)
    (hc : lineagePairCandidate A B = some (o, n))
    (hnew : ((preLineageChanges A B).filter (fun c => c.type = "rename")).any
        (fun r => decide (r.old_value = some o ∧ r.new_value = some n)) = false) :
    ({ type := "rename", old_value := some o, new_value := some n,
       sectionName := some "Field Lineage" } : Change) ∈
      (create_edit_preview A B).changes := by
  unfold create_edit_preview
  dsimp only
  apply List.mem_append_right
  unfold lineageRenameChanges
  split_ifs with hemp
  · exfalso
    unfold lineagePairCandidate at hc
    rw [hemp.1, hemp.2] at hc
    simp [setKeys, dictKeys] at hc
  · rw [hc]
    dsimp only
    simp only [hnew]
    simp

/-- C6 witness: a lineage-only rename (no section objects at all) gets
the lineage-labelled rename change appended. -/
theorem C6_witness :
    ({ type := "rename", old_value := some "X", new_value := some "Y",
       sectionName := some "Field Lineage" } : Change) ∈
      (create_edit_preview exDoc6A exDoc6B).changes :=
  C6_lineage_rename_appended exDoc6A exDoc6B "X" "Y" (by decide) (by decide)

/-- C6 counterexample: a rename of the field "X" to "Y" that both the
object-flattening heuristic and the lineage-key heuristic detect — the
claim says the same logical rename then appears twice, but the lineage
block's already-reported check suppresses the equal pair, so the diff
carries exactly one rename change for ("X", "Y"). -/
theorem C6_counterexample :
    lineagePairCandidate exDoc6C exDoc6D = some ("X", "Y") ∧
    countRenamePair (preLineageChanges exDoc6C exDoc6D) "X" "Y" = 1 ∧
    countRenamePair (create_edit_preview exDoc6C exDoc6D).changes "X" "Y" = 1 := by
  refine ⟨by decide, by decide, by decide⟩

/-! ## The regular-expression engine: characterisation lemmas -/

theorem drop_append_le {α} (l1 l2 : List α) (n : Nat) (h : n ≤ l1.length) :
    (l1 ++ l2).drop n = l1.drop n ++ l2 := by
  induction l1 generalizing n with
  | nil =>
      have : n = 0 := by simpa using h
      simp [this]
  | cons c t ih =>
      cases n with
      | zero => simp
      | succ k => simpa using ih k (by simpa using h)

theorem drop_append_ge {α} (l1 l2 : List α) (n : Nat) (h : l1.length ≤ n) :
    (l1 ++ l2).drop n = l2.drop (n - l1.length) := by
  induction l1 generalizing n with
  | nil => simp
  | cons c t ih =>
      cases n with
      | zero => simp at h
      | succ k =>
          simp only [List.cons_append, List.drop_succ_cons, List.length_cons]
          rw [ih k (by simpa using h)]
          congr 1
          omega

theorem takeWhile_all {p : Char → Bool} (l : List Char)
    (h : ∀ c ∈ l, p c = true) : l.takeWhile p = l := by
  induction l with
  | nil => rfl
  | cons c t ih =>
      have hc := h c (List.mem_cons_self ..)
      simp [List.takeWhile_cons, hc,
        ih (fun d hd => h d (List.mem_cons_of_mem _ hd))]

theorem takeWhile_append_of_all {p : Char → Bool} (a rest : List Char)
    (ha : ∀ c ∈ a, p c = true) :
    (a ++ rest).takeWhile p = a ++ rest.takeWhile p := by
  induction a with
  | nil => simp
  | cons c t ih =>
      have hc := ha c (List.mem_cons_self ..)
      simp only [List.cons_append, List.takeWhile_cons, hc, if_true]
      rw [ih (fun d hd => ha d (List.mem_cons_of_mem _ hd))]

theorem takeWhile_append_all {p : Char → Bool} (q : List Char) (x : Char)
    (b : List Char) (hq : ∀ c ∈ q, p c = true) (hx : p x = false) :
    (q ++ x :: b).takeWhile p = q := by
  rw [takeWhile_append_of_all q _ hq]
  simp [List.takeWhile_cons, hx]

theorem tryCounts_head_some {s : List Char} {caps : List (List Char)}
    (capture : Bool) (k : List Char → Option (List (List Char)))
    (nn : Nat) (ns : List Nat) (h : k (s.drop nn) = some caps) :
    tryCounts s capture k (nn :: ns) =
      some (if capture then s.take nn :: caps else caps) := by
  simp [tryCounts, h]

theorem tryCounts_none {s : List Char} (capture : Bool)
    (k : List Char → Option (List (List Char))) (ns : List Nat)
    (h : ∀ nn ∈ ns, k (s.drop nn) = none) :
    tryCounts s capture k ns = none := by
  induction ns with
  | nil => rfl
  | cons nn ns ih =>
      have h1 := h nn (List.mem_cons_self ..)
      simp only [tryCounts, h1]
      exact ih (fun x hx => h x (List.mem_cons_of_mem _ hx))

theorem tryCounts_unique {s : List Char} {caps : List (List Char)}
    (capture : Bool) (k : List Char → Option (List (List Char)))
    (ns : List Nat) (n0 : Nat) (hmem : n0 ∈ ns)
    (hother : ∀ nn ∈ ns, nn ≠ n0 → k (s.drop nn) = none)
    (h0 : k (s.drop n0) = some caps) :
    tryCounts s capture k ns =
      some (if capture then s.take n0 :: caps else caps) := by
  induction ns with
  | nil => cases hmem
  | cons nn ns ih =>
      by_cases he : nn = n0
      · subst he
        simp [tryCounts, h0]
      · have h1 := hother nn (List.mem_cons_self ..) he
        simp only [tryCounts, h1]
        have hmem2 : n0 ∈ ns := by
          rcases List.mem_cons.1 hmem with h' | h'
          · exact absurd h'.symm he
          · exact h'
        exact ih hmem2 (fun x hx hxne => hother x (List.mem_cons_of_mem _ hx) hxne)

theorem tryCounts_some_exists {s : List Char} {caps : List (List Char)}
    {capture : Bool} {k : List Char → Option (List (List Char))}
    {ns : List Nat} (h : tryCounts s capture k ns = some caps) :
    ∃ nn ∈ ns, ∃ caps2, k (s.drop nn) = some caps2 := by
  induction ns with
  | nil => simp [tryCounts] at h
  | cons nn ns ih =>
      cases hk : k (s.drop nn) with
      | some c2 => exact ⟨nn, List.mem_cons_self .., c2, hk⟩
      | none =>
          simp only [tryCounts, hk] at h
          obtain ⟨x, hx, hc⟩ := ih h
          exact ⟨x, List.mem_cons_of_mem _ hx, hc⟩

theorem descCounts_mem {lo hi n : Nat} (h1 : lo ≤ n) (h2 : n ≤ hi) :
    n ∈ descCounts lo hi := by
  simp only [descCounts, List.mem_map, List.mem_range]
  exact ⟨hi - n, by omega, by omega⟩

theorem mem_descCounts {lo hi n : Nat} (h : n ∈ descCounts lo hi) :
    lo ≤ n ∧ n ≤ hi := by
  simp only [descCounts, List.mem_map, List.mem_range] at h
  obtain ⟨i, hi1, rfl⟩ := h
  omega

theorem descCounts_head (lo hi : Nat) (h : lo ≤ hi) :
    ∃ ns, descCounts lo hi = hi :: ns := by
  unfold descCounts
  have he : hi + 1 - lo = (hi - lo) + 1 := by omega
  rw [he, List.range_succ_eq_map]
  refine ⟨(List.range (hi - lo)).map (fun i => hi - (i + 1)), ?_⟩
  simp [List.map_map, Function.comp]

theorem isPrefixOf_exists {l s : List Char} (h : l.isPrefixOf s = true) :
    s = l ++ s.drop l.length := by
  induction l generalizing s with
  | nil => simp
  | cons c t ih =>
      cases s with
      | nil => simp [List.isPrefixOf] at h
      | cons b bs =>
          simp only [List.isPrefixOf, Bool.and_eq_true, beq_iff_eq] at h
          obtain ⟨rfl, h2⟩ := h
          simpa using ih h2

theorem isPrefixOf_append_self (l v : List Char) :
    l.isPrefixOf (l ++ v) = true := by
  induction l with
  | nil => simp [List.isPrefixOf]
  | cons c t ih => simp [List.isPrefixOf, ih]

theorem matchSeq_nil_eq (s : List Char) : matchSeq [] s = some [] := rfl

theorem matchSeq_lit_eq (l : List Char) (rest : List RItem) (s : List Char) :
    matchSeq (.lit l :: rest) s =
      (if l.isPrefixOf s then matchSeq rest (s.drop l.length) else none) := rfl

theorem matchSeq_rep_eq (cls : Char → Bool) (lo : Nat) (hi : Option Nat)
    (capture : Bool) (rest : List RItem) (s : List Char) :
    matchSeq (.rep cls lo hi capture :: rest) s =
      (let run := (s.takeWhile cls).length
       let maxN := match hi with | none => run | some h1 => min h1 run
       if lo ≤ maxN then
         tryCounts s capture (matchSeq rest) (descCounts lo maxN)
       else none) := rfl

theorem matchSeq_rep1_fail (cls : Char → Bool) (hi : Option Nat)
    (capture : Bool) (rest : List RItem) (u : List Char)
    (h : u = [] ∨ ∃ c w, u = c :: w ∧ cls c = false) :
    matchSeq (.rep cls 1 hi capture :: rest) u = none := by
  rcases h with rfl | ⟨c, w, rfl, hc⟩
  · rw [matchSeq_rep_eq]
    cases hi <;> simp
  · rw [matchSeq_rep_eq]
    cases hi <;> simp [List.takeWhile_cons, hc]

theorem takeWhile_quote_cons (b : List Char) (c2 : Char)
    (hc2 : isQuoteChar c2 = true) (hb : ∀ c ∈ b, isQuoteChar c = false) :
    (c2 :: b).takeWhile isQuoteChar = [c2] := by
  cases b with
  | nil => simp [List.takeWhile_cons, hc2]
  | cons bh bt =>
      have hbh := hb bh (List.mem_cons_self ..)
      simp [List.takeWhile_cons, hc2, hbh]

theorem matchSeq_closeQuote (b : List Char) (c2 : Char)
    (hc2 : isQuoteChar c2 = true) (hb : ∀ c ∈ b, isQuoteChar c = false) :
    matchSeq [.rep isQuoteChar 1 (some 1) false] (c2 :: b) = some [] := by
  have htw := takeWhile_quote_cons b c2 hc2 hb
  have hdc : descCounts 1 1 = [1] := rfl
  rw [matchSeq_rep_eq]
  simp only [htw, List.length_cons, List.length_nil]
  norm_num
  rw [hdc, tryCounts_head_some false _ 1 []
    (show matchSeq [] ((c2 :: b).drop 1) = some [] from rfl)]
  rfl

theorem matchSeq_repNone_eq (cls : Char → Bool) (lo : Nat) (capture : Bool)
    (rest : List RItem) (s : List Char) :
    matchSeq (.rep cls lo none capture :: rest) s =
      (if lo ≤ (s.takeWhile cls).length then
         tryCounts s capture (matchSeq rest)
           (descCounts lo (s.takeWhile cls).length)
       else none) := rfl

theorem searchFrom_lit {items : List RItem} {caps : List (List Char)}
    (kw L t : List Char) (hkw : kw ≠ [])
    (hfind : afterFirstSubstr kw L = some t)
    (hmatch : matchSeq items t = some caps) :
    searchFrom (.lit kw :: items) L = some caps := by
  induction L with
  | nil =>
      unfold afterFirstSubstr at hfind
      rw [if_neg (by simpa [List.isEmpty_iff] using hkw)] at hfind
      cases hfind
  | cons c rest ih =>
      unfold afterFirstSubstr at hfind
      unfold searchFrom
      by_cases hp : kw.isPrefixOf (c :: rest) = true
      · rw [if_pos hp] at hfind
        have ht : t = (c :: rest).drop kw.length := by cases hfind; rfl
        rw [matchSeq_lit_eq, if_pos hp, ← ht, hmatch]
      · rw [if_neg hp] at hfind
        have hms : matchSeq (.lit kw :: items) (c :: rest) = none := by
          rw [matchSeq_lit_eq, if_neg hp]
        rw [hms]
        exact ih hfind

theorem matchSeq_repSome_eq (cls : Char → Bool) (lo h1 : Nat)
    (capture : Bool) (rest : List RItem) (s : List Char) :
    matchSeq (.rep cls lo (some h1) capture :: rest) s =
      (if lo ≤ min h1 (s.takeWhile cls).length then
         tryCounts s capture (matchSeq rest)
           (descCounts lo (min h1 (s.takeWhile cls).length))
       else none) := rfl

/-- A successful match contains every literal of its pattern as a
substring. -/
theorem matchSeq_lit_exists (l : List Char) :
    ∀ (items : List RItem) (s : List Char) (caps : List (List Char)),
      RItem.lit l ∈ items → matchSeq items s = some caps →
      ∃ u v, s = u ++ l ++ v := by
  intro items
  induction items with
  | nil => intro s caps hmem _; cases hmem
  | cons it rest ih =>
      intro s caps hmem h
      cases it with
      | lit l0 =>
          rw [matchSeq_lit_eq] at h
          by_cases hp : l0.isPrefixOf s = true
          · rw [if_pos hp] at h
            rcases List.mem_cons.1 hmem with heq | hmem2
            · cases heq
              exact ⟨[], s.drop l.length, by simpa using isPrefixOf_exists hp⟩
            · obtain ⟨u, v, huv⟩ := ih _ _ hmem2 h
              refine ⟨l0 ++ u, v, ?_⟩
              have hs := isPrefixOf_exists hp
              rw [huv] at hs
              rw [hs]
              simp
          · rw [if_neg hp] at h; cases h
      | rep cls lo hi capture =>
          have hmem2 : RItem.lit l ∈ rest := by
            rcases List.mem_cons.1 hmem with heq | hmem2
            · cases heq
            · exact hmem2
          have hex : ∃ nn, ∃ caps2, matchSeq rest (s.drop nn) = some caps2 := by
            cases hi with
            | none =>
                rw [matchSeq_repNone_eq] at h
                split_ifs at h with hle
                · obtain ⟨nn, _, caps2, hk⟩ := tryCounts_some_exists h
                  exact ⟨nn, caps2, hk⟩
            | some h1 =>
                rw [matchSeq_repSome_eq] at h
                split_ifs at h with hle
                · obtain ⟨nn, _, caps2, hk⟩ := tryCounts_some_exists h
                  exact ⟨nn, caps2, hk⟩
          obtain ⟨nn, caps2, hk⟩ := hex
          obtain ⟨u, v, huv⟩ := ih _ _ hmem2 hk
          refine ⟨s.take nn ++ u, v, ?_⟩
          conv_lhs => rw [← List.take_append_drop nn s]
          rw [huv]
          simp

theorem searchFrom_lit_exists (l : List Char) (items : List RItem)
    (hmem : RItem.lit l ∈ items) :
    ∀ (L : List Char) (caps : List (List Char)),
      searchFrom items L = some caps → ∃ u v, L = u ++ l ++ v := by
  intro L
  induction L with
  | nil =>
      intro caps h
      exact matchSeq_lit_exists l items [] caps hmem h
  | cons c rest ih =>
      intro caps h
      unfold searchFrom at h
      cases hm : matchSeq items (c :: rest) with
      | some caps2 => exact matchSeq_lit_exists l items _ _ hmem hm
      | none =>
          rw [hm] at h
          obtain ⟨u, v, huv⟩ := ih _ h
          exact ⟨c :: u, v, by rw [huv]; rfl⟩

theorem afterFirstSubstr_isSome_of_prefixed (kw s : List Char)
    (hp : kw.isPrefixOf s = true) : (afterFirstSubstr kw s).isSome = true := by
  cases s with
  | nil =>
      have hkw : kw = [] := by
        cases kw with
        | nil => rfl
        | cons c t => simp [List.isPrefixOf] at hp
      subst hkw
      simp [afterFirstSubstr]
  | cons c rest =>
      unfold afterFirstSubstr
      rw [if_pos hp]
      rfl

theorem afterFirstSubstr_cons_eq (kw : List Char) (c : Char) (rest : List Char) :
    afterFirstSubstr kw (c :: rest) =
      (if kw.isPrefixOf (c :: rest) = true then
        some (List.drop kw.length (c :: rest))
      else afterFirstSubstr kw rest) := rfl

theorem containsSub_of_decomp (kw u v : List Char) :
    containsSub kw (u ++ kw ++ v) = true := by
  induction u with
  | nil =>
      have := afterFirstSubstr_isSome_of_prefixed kw (kw ++ v)
        (isPrefixOf_append_self kw v)
      simpa [containsSub] using this
  | cons c u2 ih =>
      have hcons : ((c :: u2) ++ kw ++ v : List Char) = c :: (u2 ++ kw ++ v) := by simp
      rw [hcons]
      unfold containsSub
      rw [afterFirstSubstr_cons_eq]
      by_cases hp : kw.isPrefixOf (c :: (u2 ++ kw ++ v)) = true
      · rw [if_pos hp]
        rfl
      · rw [if_neg hp]
        exact ih

/-- A pattern with a literal the text does not contain can never
match. -/
theorem searchFrom_none_of_not_contains (l : List Char) (items : List RItem)
    (hmem : RItem.lit l ∈ items) (L : List Char)
    (h : containsSub l L = false) : searchFrom items L = none := by
  cases hs : searchFrom items L with
  | none => rfl
  | some caps =>
      obtain ⟨u, v, huv⟩ := searchFrom_lit_exists l items hmem L caps hs
      rw [huv, containsSub_of_decomp] at h
      cases h

/-! ## Claims C7 and C8: the hide, show and move branches of the parser

`import re` (line 174) sits inside the rename branch, so the name `re`
is local to `_fallback_parse_command` and is unbound in every other
branch; the hide (line 224), show (line 243), move (line 262) and
change-title (line 293) branches each open with an `re.search` call and
therefore raise UnboundLocalError the moment the dispatch enters
them. -/

/-- C7: the hide and show branches never behave as specified — whenever
the dispatch reaches them (the lower-cased instruction contains "hide"
but not "rename", or contains "show" but neither "rename" nor "hide"),
the parser raises UnboundLocalError on the unbound local `re` at the
branch's first `re.search` call; no hide_field or show_field command is
ever produced and the terminal ValueError carrying the instruction text
is never reached from these branches. -/
theorem C7_hide_show_unbound (m : Document) (s : String)
    (hren : containsSub "rename".data (lowered s) = false)
    (hkw : containsSub "hide".data (lowered s) = true ∨
      (containsSub "hide".data (lowered s) = false ∧
       containsSub "show".data (lowered s) = true)) :
    fallback_parse_command s m =
      Except.error (.unboundLocalError "re") := by
  simp only [fallback_parse_command]
  rcases hkw with h | ⟨h1, h2⟩
  · rw [if_neg (by simp [hren]), if_pos h]
  · rw [if_neg (by simp [hren]), if_neg (by simp [h1]), if_pos h2]

/-- C7 witness: `hide 'total'` against the document whose one lineage
field is "Total" — instead of a hide_field command, the parser raises
UnboundLocalError. -/
theorem C7_witness :
    fallback_parse_command "hide 'total'" exDoc1 =
      Except.error (.unboundLocalError "re") :=
  C7_hide_show_unbound exDoc1 "hide 'total'" (by decide) (Or.inl (by decide))

/-- C8: the move branch never behaves as specified — whenever the
dispatch reaches it (the lower-cased instruction contains "move" and
none of "rename", "hide", "show"), the parser raises UnboundLocalError
on the unbound local `re` at line 262, before extracting any field
name; in particular it never produces a move_field command without a
target_section when the `to … section` fragment is absent. -/
theorem C8_move_unbound (m : Document) (s : String)
    (hren : containsSub "rename".data (lowered s) = false)
    (hhide : containsSub "hide".data (lowered s) = false)
    (hshw : containsSub "show".data (lowered s) = false)
    (hmv : containsSub "move".data (lowered s) = true) :
    fallback_parse_command s m =
      Except.error (.unboundLocalError "re") := by
  simp only [fallback_parse_command]
  rw [if_neg (by simp [hren]), if_neg (by simp [hhide]),
    if_neg (by simp [hshw]), if_pos hmv]

/-- C8 witness: `move 'amount'` against the document whose one lineage
field is "Amount" — the quoted name would resolve and the section
fragment is absent, but the parser raises UnboundLocalError before
looking at either. -/
theorem C8_witness :
    fallback_parse_command "move 'amount'" exDoc8 =
      Except.error (.unboundLocalError "re") :=
  C8_move_unbound exDoc8 "move 'amount'" (by decide) (by decide) (by decide)
    (by decide)

end EditService
